import Mathlib

/-!
Shallow embedding of the reposoul polling/notification engine.

The embedding follows `src/events.rs` (the seen-set/start-time dedup engine:
`run_event_checker`, `check_workflow_run`, `check_pr_events`) and
`src/monitor.rs` (the label/sha-diff engine: `run`).  Timestamps
(`DateTime<Utc>`) are modelled as `Int`; `HashSet<i64>` as `List Int` with
membership; `HashMap<String, _>` as an association list; a fallible remote
fetch as `Except Unit α`; the mpsc channel as a boolean `chOpen` — a send
succeeds exactly when the channel is open, and events actually delivered to
the consumer are the attempted sends of a cycle when the channel is open.
-/

namespace Reposoul

/-- Conclusion of a workflow run (github.rs `WorkflowRunConclusion`). -/
inductive WorkflowRunConclusion
  | success
  | failure
  | cancelled
  | actionRequired
  | neutral
  | skipped
  | stale
  | timedOut
deriving DecidableEq, Repr

/-- Status of a workflow run (github.rs `WorkflowRunStatus`). -/
inductive WorkflowRunStatus
  | completed
  | actionRequired
  | cancelled
  | failure
  | neutral
  | skipped
  | stale
  | success
  | timedOut
  | inProgress
  | queued
  | requested
  | waiting
  | pending
deriving DecidableEq, Repr

/-- A workflow run (github.rs `WorkflowRun`). -/
structure WorkflowRun where
  id : Int
  status : WorkflowRunStatus
  conclusion : Option WorkflowRunConclusion
  created_at : Int
  updated_at : Int
deriving DecidableEq, Repr

/-- State of a PR review (github.rs `ReviewState`). -/
inductive ReviewState
  | approved
  | changesRequested
  | commented
  | dismissed
  | pending
deriving DecidableEq, Repr

/-- A PR review (github.rs `Review`). -/
structure Review where
  id : Int
  state : ReviewState
  submitted_at : Int
deriving DecidableEq, Repr

/-- An issue comment on a PR (github.rs `Comment`). -/
structure Comment where
  id : Int
  body : String
  created_at : Int
deriving DecidableEq, Repr

/-- A pull request (github.rs `PullRequest`). -/
structure PullRequest where
  id : Int
  number : Nat
  title : String
  merged : Option Bool
  merged_at : Option Int
  created_at : Int
  updated_at : Int
deriving DecidableEq, Repr

/-- The six notification kinds (events.rs `NotificationEvent`). -/
inductive NotificationEvent
  | CiSuccess
  | CiFailure
  | PrApproved
  | PrChangesRequested
  | PrMerged
  | PrNewComment
deriving DecidableEq, Repr

/-- Mutable state of events.rs `run_event_checker` (`EventCheckerState`). -/
structure EventCheckerState where
  start_time : Int
  seen_workflow_runs : List Int
  seen_comments : List Int
  seen_reviews : List Int
  pr_is_merged : Bool
deriving DecidableEq, Repr

/-- What one tick of the events.rs loop observes remotely: the outcome of
each of the remote fetches issued during the cycle. -/
structure Observation where
  runsFetch : Except Unit (List WorkflowRun)
  prFetch : Except Unit (Option PullRequest)
  detailsFetch : Except Unit PullRequest
  reviewsFetch : Except Unit (List Review)
  commentsFetch : Except Unit (List Comment)

/-- events.rs `check_workflow_run`: keep the fetched runs that are completed
and unseen; if any new completed run concluded Failure send CiFailure, else
if any concluded Success send CiSuccess, else nothing; finally mark every new
completed run as seen (a failed send only logs, so `chOpen` plays no role
here).  Returns the attempted sends and the updated state. -/
def newCompletedRuns (runs : List WorkflowRun) (seen : List Int) :
    List WorkflowRun :=
  runs.filter fun run =>
    decide (run.status = WorkflowRunStatus.completed ∧ run.id ∉ seen)

/-- events.rs `check_workflow_run`, the per-cycle CI check, on the outcome
of the workflow-runs fetch. -/
def check_workflow_run (fetch : Except Unit (List WorkflowRun))
    (state : EventCheckerState) : List NotificationEvent × EventCheckerState :=
  match fetch with
  | .error _ => ([], state)
  | .ok runs =>
    let new_completed_runs := newCompletedRuns runs state.seen_workflow_runs
    if new_completed_runs.isEmpty then ([], state)
    else
      let event_to_send : Option NotificationEvent :=
        if new_completed_runs.any
            (fun run => decide (run.conclusion = some WorkflowRunConclusion.failure)) then
          some NotificationEvent.CiFailure
        else if new_completed_runs.any
            (fun run => decide (run.conclusion = some WorkflowRunConclusion.success)) then
          some NotificationEvent.CiSuccess
        else
          none
      let evs := match event_to_send with
        | some e => [e]
        | none => []
      let seen := new_completed_runs.foldl
        (fun s run => run.id :: s) state.seen_workflow_runs
      (evs, { state with seen_workflow_runs := seen })

/-- A fresh `EventCheckerState` with the given start time
(events.rs `EventCheckerState::new`). -/
def EventCheckerState.fresh (t : Int) : EventCheckerState :=
  ⟨t, [], [], [], false⟩

/-- The event the events.rs review loop maps a review state to: Approved ↦
PrApproved, ChangesRequested ↦ PrChangesRequested, anything else ↦ none. -/
def reviewEvent : ReviewState → Option NotificationEvent
  | .approved => some NotificationEvent.PrApproved
  | .changesRequested => some NotificationEvent.PrChangesRequested
  | _ => none

/-- The review loop of events.rs `check_pr_events`: iterate the fetched
reviews in order; a review that is unseen and submitted after `start` is
processed — a decisive review attempts a send (on a closed channel the
function returns at once, without marking the review seen), any processed
review is otherwise marked seen.  Returns (attempted sends, seen set,
whether the loop aborted on a failed send). -/
def processReviews (chOpen : Bool) (start : Int) :
    List Review → List Int → List NotificationEvent × List Int × Bool
  | [], seen => ([], seen, false)
  | review :: rest, seen =>
    if decide (review.id ∉ seen ∧ start < review.submitted_at) then
      match reviewEvent review.state with
      | some e =>
        if chOpen then
          let (evs, seen', ab) := processReviews chOpen start rest (review.id :: seen)
          (e :: evs, seen', ab)
        else ([e], seen, true)
      | none => processReviews chOpen start rest (review.id :: seen)
    else processReviews chOpen start rest seen

/-- The comment loop of events.rs `check_pr_events`: each unseen comment
created after `start` attempts a PrNewComment send (aborting the loop,
comment unmarked, if the channel is closed) and is marked seen. -/
def processComments (chOpen : Bool) (start : Int) :
    List Comment → List Int → List NotificationEvent × List Int × Bool
  | [], seen => ([], seen, false)
  | comment :: rest, seen =>
    if decide (comment.id ∉ seen ∧ start < comment.created_at) then
      if chOpen then
        let (evs, seen', ab) := processComments chOpen start rest (comment.id :: seen)
        (NotificationEvent.PrNewComment :: evs, seen', ab)
      else ([NotificationEvent.PrNewComment], seen, true)
    else processComments chOpen start rest seen

/-- The review loop applied to the outcome of the reviews fetch: a failed
fetch is logged and skipped (events.rs line 187). -/
def reviewPass (chOpen : Bool) (fetch : Except Unit (List Review))
    (start : Int) (seen : List Int) :
    List NotificationEvent × List Int × Bool :=
  match fetch with
  | .error _ => ([], seen, false)
  | .ok reviews => processReviews chOpen start reviews seen

/-- The comment loop applied to the outcome of the comments fetch: a failed
fetch is logged and skipped (events.rs line 206). -/
def commentPass (chOpen : Bool) (fetch : Except Unit (List Comment))
    (start : Int) (seen : List Int) :
    List NotificationEvent × List Int × Bool :=
  match fetch with
  | .error _ => ([], seen, false)
  | .ok comments => processComments chOpen start comments seen

/-- The merged test of events.rs `check_pr_events` (lines 145-148):
`merged == Some(true) && merged_at.map_or(false, |ts| ts > start_time)`,
with a failed details fetch logged and treated as not merged. -/
def mergedHitCheck (start : Int) (fetch : Except Unit PullRequest) : Bool :=
  match fetch with
  | .error _ => false
  | .ok details =>
    decide (details.merged = some true) &&
      (details.merged_at.map fun ts => decide (start < ts)).getD false

/-- events.rs `check_pr_events`: no open PR (or a failed PR fetch) does
nothing; a PR merged after start_time attempts a PrMerged send and, when the
send succeeds, records `pr_is_merged := true` and returns; otherwise the
review loop and then the comment loop run (a failed review-loop send skips
the comment loop, mirroring its early `return`). -/
def check_pr_events (chOpen : Bool) (obs : Observation)
    (state : EventCheckerState) : List NotificationEvent × EventCheckerState :=
  match obs.prFetch with
  | .error _ => ([], state)
  | .ok none => ([], state)
  | .ok (some _pr) =>
    if mergedHitCheck state.start_time obs.detailsFetch then
      if chOpen then
        ([NotificationEvent.PrMerged], { state with pr_is_merged := true })
      else
        ([NotificationEvent.PrMerged], state)
    else
      let rp := reviewPass chOpen obs.reviewsFetch state.start_time state.seen_reviews
      let state1 := { state with seen_reviews := rp.2.1 }
      if rp.2.2 then (rp.1, state1)
      else
        let cp := commentPass chOpen obs.commentsFetch state1.start_time
          state1.seen_comments
        (rp.1 ++ cp.1, { state1 with seen_comments := cp.2.1 })

/-- One tick of the events.rs `run_event_checker` loop: always run
`check_workflow_run`, then run `check_pr_events` unless `pr_is_merged`. -/
def runCycle (chOpen : Bool) (obs : Observation)
    (state : EventCheckerState) : List NotificationEvent × EventCheckerState :=
  let (ciEvents, state1) := check_workflow_run obs.runsFetch state
  if !state1.pr_is_merged then
    let (prEvents, state2) := check_pr_events chOpen obs state1
    (ciEvents ++ prEvents, state2)
  else (ciEvents, state1)

/-- Iterated ticks of the events.rs loop; each cycle carries its own channel
openness and remote observation. -/
def runCycles : List (Bool × Observation) → EventCheckerState →
    List NotificationEvent × EventCheckerState
  | [], state => ([], state)
  | (c, obs) :: rest, state =>
    let (evs, state') := runCycle c obs state
    let (evs', state'') := runCycles rest state'
    (evs ++ evs', state'')

/-- The events a cycle actually delivers to the consumer: its attempted
sends when the channel is open, nothing when it is closed. -/
def delivered (chOpen : Bool) (evs : List NotificationEvent) :
    List NotificationEvent :=
  if chOpen then evs else []

/-- A PR record that is not merged, for concrete tests. -/
def openPr : PullRequest := ⟨7, 7, "t", some false, none, 0, 0⟩

/-- Per-branch record of monitor.rs (`MonitoredBranch`). -/
structure MonitoredBranch where
  last_notified_sha : String
  last_notified_status : String
deriving DecidableEq, Repr

/-- monitor.rs `MonitorState`: the `HashMap<String, MonitoredBranch>`
modelled as an association list keyed by branch name. -/
structure MonitorState where
  branches : List (String × MonitoredBranch)
deriving DecidableEq, Repr

/-- `HashMap::get` on the association list. -/
def mapGet (m : List (String × MonitoredBranch)) (k : String) :
    Option MonitoredBranch :=
  (m.find? fun p => decide (p.1 = k)).map Prod.snd

/-- `HashMap::insert` on the association list (replaces any entry for `k`). -/
def mapInsert (m : List (String × MonitoredBranch)) (k : String)
    (v : MonitoredBranch) : List (String × MonitoredBranch) :=
  (k, v) :: m.filter fun p => decide (p.1 ≠ k)

/-- What one monitor.rs poll observes remotely: whether the branch-list
fetch succeeded, the branch roster, and per branch the latest commit sha
(`None` models `get_latest_commit_sha` failing, the `continue` case) and the
resolved status string of `get_branch_status_image`. -/
structure MonitorObs where
  fetchOk : Bool
  names : List String
  shaOf : String → Option String
  statusOf : String → String

/-- The per-branch body of monitor.rs `run` (lines 85-117): skip the branch
when the sha fetch failed; otherwise compute `is_new_branch` and
`has_new_status` (sha or status differs, or the branch is new); when the
status changed and is non-empty, send a notification unless the branch is
new — the send is `gui_sender.send(..).unwrap()`, so a closed channel
panics, modelled as `.error ()` — and insert the updated record. -/
def monitorBranchStep (chOpen : Bool) (branch_name : String)
    (latest_sha : Option String) (new_status : String) (st : MonitorState) :
    Except Unit (List String × MonitorState) :=
  match latest_sha with
  | none => .ok ([], st)
  | some sha =>
    let current_branch_state := mapGet st.branches branch_name
    let is_new_branch := current_branch_state.isNone
    let has_new_status :=
      match current_branch_state with
      | some b =>
        decide (b.last_notified_sha ≠ sha ∨ b.last_notified_status ≠ new_status)
      | none => true
    if has_new_status && decide (new_status ≠ "") then
      if !is_new_branch then
        if chOpen then
          .ok ([new_status],
            ⟨mapInsert st.branches branch_name ⟨sha, new_status⟩⟩)
        else .error ()
      else
        .ok ([], ⟨mapInsert st.branches branch_name ⟨sha, new_status⟩⟩)
    else .ok ([], st)

/-- The branch loop of monitor.rs `run`: fold `monitorBranchStep` over the
roster, concatenating sent statuses; a panic aborts the whole cycle. -/
def monitorGo (chOpen : Bool) (shaOf : String → Option String)
    (statusOf : String → String) :
    List String → MonitorState → Except Unit (List String × MonitorState)
  | [], st => .ok ([], st)
  | n :: rest, st =>
    match monitorBranchStep chOpen n (shaOf n) (statusOf n) st with
    | .error e => .error e
    | .ok (evs, st') =>
      match monitorGo chOpen shaOf statusOf rest st' with
      | .error e => .error e
      | .ok (evs', st'') => .ok (evs ++ evs', st'')

/-- One poll of monitor.rs `run`: on a failed branch-list fetch, log and
change nothing; otherwise retain only the branches still present remotely
and run the branch loop. -/
def monitorCycle (chOpen : Bool) (obs : MonitorObs) (st : MonitorState) :
    Except Unit (List String × MonitorState) :=
  if obs.fetchOk then
    let st0 : MonitorState :=
      ⟨st.branches.filter fun p => obs.names.contains p.1⟩
    monitorGo chOpen obs.shaOf obs.statusOf obs.names st0
  else .ok ([], st)

/-- A branch is settled in a monitor state when re-observing it changes
nothing: either its sha fetch fails, or its status resolves empty, or the
stored record already matches the observed sha and status. -/
def branchSettled (obs : MonitorObs) (st : MonitorState) (n : String) : Prop :=
  match obs.shaOf n with
  | none => True
  | some s => obs.statusOf n = "" ∨ mapGet st.branches n = some ⟨s, obs.statusOf n⟩

/-- Every stored branch key belongs to the given roster. -/
def keysIn (st : MonitorState) (names : List String) : Prop :=
  ∀ p ∈ st.branches, p.1 ∈ names

/-- Concrete workflow runs used in witnesses: a failure, a success and a
cancelled run, all completed. -/
def sampleRuns : List WorkflowRun :=
  [⟨1, .completed, some .failure, 0, 0⟩,
   ⟨2, .completed, some .success, 0, 0⟩,
   ⟨3, .completed, some .cancelled, 0, 0⟩]

/-- Observation with three reviews COMMENTED(1), CHANGES_REQUESTED(2),
APPROVED(3) on an open PR, used for C3. -/
def obsReviews : Observation :=
  ⟨.ok [], .ok (some openPr), .ok openPr,
   .ok [⟨1, .commented, 1⟩, ⟨2, .changesRequested, 2⟩, ⟨3, .approved, 3⟩],
   .ok []⟩

/-- Observation with a single new COMMENTED review and no issue comment,
used for C7. -/
def obsCommented : Observation :=
  ⟨.ok [], .ok (some openPr), .ok openPr, .ok [⟨1, .commented, 5⟩], .ok []⟩

/-- Observation with a failing CI run and a new approving review in the
same cycle, used for C4. -/
def obsCiAndPr : Observation :=
  ⟨.ok [⟨1, .completed, some .failure, 1, 1⟩], .ok (some openPr), .ok openPr,
   .ok [⟨2, .approved, 3⟩], .ok []⟩

/-- A PR merged at time 5 (strictly after a start time of 0). -/
def mergedPr : PullRequest := ⟨8, 8, "t", some true, some 5, 0, 0⟩

/-- Observation showing `mergedPr`, used for C8's retry behaviour. -/
def obsMerged : Observation :=
  ⟨.ok [], .ok (some mergedPr), .ok mergedPr, .ok [], .ok []⟩

/-- A PR merged at time -5, i.e. not strictly after a start time of 0. -/
def oldMergedPr : PullRequest := ⟨9, 9, "t", some true, some (-5), 0, 0⟩

/-- Observation showing `oldMergedPr` together with a new approving review,
used for C9. -/
def obsOldMerged : Observation :=
  ⟨.ok [], .ok (some oldMergedPr), .ok oldMergedPr, .ok [⟨4, .approved, 3⟩], .ok []⟩

section WorkflowRunLemmas

theorem mem_foldl_id_of_mem_init (l : List WorkflowRun) (s : List Int) (a : Int)
    (h : a ∈ s) : a ∈ l.foldl (fun acc run => run.id :: acc) s := by
  induction l generalizing s with
  | nil => exact h
  | cons r rest ih => exact ih _ (List.mem_cons_of_mem _ h)

theorem mem_foldl_id_of_mem (l : List WorkflowRun) (s : List Int)
    (r : WorkflowRun) (h : r ∈ l) :
    r.id ∈ l.foldl (fun acc run => run.id :: acc) s := by
  induction l generalizing s with
  | nil => cases h
  | cons x rest ih =>
    rcases List.mem_cons.mp h with h1 | h2
    · subst h1
      exact mem_foldl_id_of_mem_init rest _ _ (List.mem_cons_self _ _)
    · exact ih _ h2

theorem newCompletedRuns_isEmpty_false_of_mem {runs : List WorkflowRun}
    {seen : List Int} {r : WorkflowRun} (h : r ∈ newCompletedRuns runs seen) :
    (newCompletedRuns runs seen).isEmpty = false := by
  cases hnc : newCompletedRuns runs seen with
  | nil => rw [hnc] at h; cases h
  | cons a l => rfl

theorem cwr_failure (runs : List WorkflowRun) (st : EventCheckerState)
    (h : ∃ r ∈ newCompletedRuns runs st.seen_workflow_runs,
      r.conclusion = some WorkflowRunConclusion.failure) :
    (check_workflow_run (.ok runs) st).1 = [NotificationEvent.CiFailure] := by
  obtain ⟨r, hr, hc⟩ := h
  have hne := newCompletedRuns_isEmpty_false_of_mem hr
  have hany : (newCompletedRuns runs st.seen_workflow_runs).any
      (fun run => decide (run.conclusion = some WorkflowRunConclusion.failure)) = true :=
    List.any_eq_true.mpr ⟨r, hr, by simp [hc]⟩
  simp [check_workflow_run, hne, hany]

theorem cwr_success (runs : List WorkflowRun) (st : EventCheckerState)
    (hnf : ∀ r ∈ newCompletedRuns runs st.seen_workflow_runs,
      r.conclusion ≠ some WorkflowRunConclusion.failure)
    (h : ∃ r ∈ newCompletedRuns runs st.seen_workflow_runs,
      r.conclusion = some WorkflowRunConclusion.success) :
    (check_workflow_run (.ok runs) st).1 = [NotificationEvent.CiSuccess] := by
  obtain ⟨r, hr, hc⟩ := h
  have hne := newCompletedRuns_isEmpty_false_of_mem hr
  have hanyf : (newCompletedRuns runs st.seen_workflow_runs).any
      (fun run => decide (run.conclusion = some WorkflowRunConclusion.failure)) = false := by
    rw [List.any_eq_false]
    intro x hx
    simp [hnf x hx]
  have hanys : (newCompletedRuns runs st.seen_workflow_runs).any
      (fun run => decide (run.conclusion = some WorkflowRunConclusion.success)) = true :=
    List.any_eq_true.mpr ⟨r, hr, by simp [hc]⟩
  simp [check_workflow_run, hne, hanyf, hanys]

theorem cwr_no_event (runs : List WorkflowRun) (st : EventCheckerState)
    (h : ∀ r ∈ newCompletedRuns runs st.seen_workflow_runs,
      r.conclusion ≠ some WorkflowRunConclusion.failure ∧
      r.conclusion ≠ some WorkflowRunConclusion.success) :
    (check_workflow_run (.ok runs) st).1 = [] := by
  cases hne : (newCompletedRuns runs st.seen_workflow_runs).isEmpty with
  | true => simp [check_workflow_run, hne]
  | false =>
    have hanyf : (newCompletedRuns runs st.seen_workflow_runs).any
        (fun run => decide (run.conclusion = some WorkflowRunConclusion.failure)) = false := by
      rw [List.any_eq_false]
      intro x hx
      simp [(h x hx).1]
    have hanys : (newCompletedRuns runs st.seen_workflow_runs).any
        (fun run => decide (run.conclusion = some WorkflowRunConclusion.success)) = false := by
      rw [List.any_eq_false]
      intro x hx
      simp [(h x hx).2]
    simp [check_workflow_run, hne, hanyf, hanys]

theorem cwr_length (fetch : Except Unit (List WorkflowRun))
    (st : EventCheckerState) : (check_workflow_run fetch st).1.length ≤ 1 := by
  cases fetch with
  | error e => simp [check_workflow_run]
  | ok runs =>
    simp only [check_workflow_run]
    split
    · simp
    · split <;> simp

theorem cwr_state (fetch : Except Unit (List WorkflowRun))
    (st : EventCheckerState) :
    (check_workflow_run fetch st).2.start_time = st.start_time ∧
    (check_workflow_run fetch st).2.seen_reviews = st.seen_reviews ∧
    (check_workflow_run fetch st).2.seen_comments = st.seen_comments ∧
    (check_workflow_run fetch st).2.pr_is_merged = st.pr_is_merged := by
  cases fetch with
  | error e => simp [check_workflow_run]
  | ok runs =>
    simp only [check_workflow_run]
    split
    · simp
    · simp

theorem cwr_seen_super (fetch : Except Unit (List WorkflowRun))
    (st : EventCheckerState) (a : Int) (h : a ∈ st.seen_workflow_runs) :
    a ∈ (check_workflow_run fetch st).2.seen_workflow_runs := by
  cases fetch with
  | error e => simpa [check_workflow_run] using h
  | ok runs =>
    simp only [check_workflow_run]
    split
    · exact h
    · exact mem_foldl_id_of_mem_init _ _ _ h

theorem cwr_seen_covers (runs : List WorkflowRun) (st : EventCheckerState)
    (r : WorkflowRun) (hr : r ∈ runs)
    (hc : r.status = WorkflowRunStatus.completed) :
    r.id ∈ (check_workflow_run (.ok runs) st).2.seen_workflow_runs := by
  by_cases hseen : r.id ∈ st.seen_workflow_runs
  · exact cwr_seen_super _ _ _ hseen
  · have hmem : r ∈ newCompletedRuns runs st.seen_workflow_runs := by
      simp [newCompletedRuns, List.mem_filter, hr, hc, hseen]
    have hne := newCompletedRuns_isEmpty_false_of_mem hmem
    simp only [check_workflow_run, hne]
    simp only [Bool.false_eq_true, if_false]
    exact mem_foldl_id_of_mem _ _ _ hmem

theorem cwr_stable (runs : List WorkflowRun) (st : EventCheckerState)
    (h : ∀ r ∈ runs, r.status = WorkflowRunStatus.completed →
      r.id ∈ st.seen_workflow_runs) :
    check_workflow_run (.ok runs) st = ([], st) := by
  have hnc : newCompletedRuns runs st.seen_workflow_runs = [] := by
    rw [newCompletedRuns, List.filter_eq_nil_iff]
    intro r hr
    simp only [decide_eq_true_eq, not_and, not_not]
    exact h r hr
  simp [check_workflow_run, hnc]

theorem cwr_events_ci (fetch : Except Unit (List WorkflowRun))
    (st : EventCheckerState) (e : NotificationEvent)
    (h : e ∈ (check_workflow_run fetch st).1) :
    e = NotificationEvent.CiSuccess ∨ e = NotificationEvent.CiFailure := by
  cases fetch with
  | error er => simp [check_workflow_run] at h
  | ok runs =>
    simp only [check_workflow_run] at h
    rcases hne : (newCompletedRuns runs st.seen_workflow_runs).isEmpty with _ | _
    all_goals rw [hne] at h
    · rcases hf : (newCompletedRuns runs st.seen_workflow_runs).any
          (fun run => decide (run.conclusion = some WorkflowRunConclusion.failure)) with _ | _
      all_goals rw [hf] at h
      · rcases hs : (newCompletedRuns runs st.seen_workflow_runs).any
            (fun run => decide (run.conclusion = some WorkflowRunConclusion.success)) with _ | _
        all_goals rw [hs] at h
        · simp at h
        · simp at h; simp [h]
      · simp at h; simp [h]
    · simp at h

end WorkflowRunLemmas

/-- C2: amended.  Among the new completed workflow runs of a poll, any run
concluding failure yields the single event CiFailure; with no failure, any
run concluding success yields CiSuccess; with neither conclusion present
(e.g. only timed-out or cancelled runs) no CI event is sent at all — the
code never maps timed_out or cancelled to a failure signal.  In particular
one failing run among otherwise-succeeding runs yields CiFailure, never
CiSuccess. -/
theorem c2_theorem (runs : List WorkflowRun) (st : EventCheckerState) :
    ((∃ r ∈ newCompletedRuns runs st.seen_workflow_runs,
        r.conclusion = some WorkflowRunConclusion.failure) →
      (check_workflow_run (.ok runs) st).1 = [NotificationEvent.CiFailure]) ∧
    ((∀ r ∈ newCompletedRuns runs st.seen_workflow_runs,
        r.conclusion ≠ some WorkflowRunConclusion.failure) →
      (∃ r ∈ newCompletedRuns runs st.seen_workflow_runs,
        r.conclusion = some WorkflowRunConclusion.success) →
      (check_workflow_run (.ok runs) st).1 = [NotificationEvent.CiSuccess]) ∧
    ((∀ r ∈ newCompletedRuns runs st.seen_workflow_runs,
        r.conclusion ≠ some WorkflowRunConclusion.failure ∧
        r.conclusion ≠ some WorkflowRunConclusion.success) →
      (check_workflow_run (.ok runs) st).1 = []) :=
  ⟨cwr_failure runs st, cwr_success runs st, cwr_no_event runs st⟩

/-- C2: counterexample to the claim as stated.  A single new completed run
concluding timed_out produces no event at all, where the claim requires the
CI signal to resolve to Failure. -/
theorem c2_counterexample :
    (check_workflow_run
      (.ok [⟨1, WorkflowRunStatus.completed, some WorkflowRunConclusion.timedOut, 1, 1⟩])
      (EventCheckerState.fresh 0)).1 = [] ∧
    (check_workflow_run
      (.ok [⟨1, WorkflowRunStatus.completed, some WorkflowRunConclusion.timedOut, 1, 1⟩])
      (EventCheckerState.fresh 0)).1 ≠ [NotificationEvent.CiFailure] := by
  decide

/-- C2: witness instantiating the amended theorem on a failing run among a
succeeding one. -/
theorem c2_witness :
    (check_workflow_run
      (.ok [⟨1, WorkflowRunStatus.completed, some WorkflowRunConclusion.failure, 0, 0⟩,
            ⟨2, WorkflowRunStatus.completed, some WorkflowRunConclusion.success, 0, 0⟩])
      (EventCheckerState.fresh 0)).1 = [NotificationEvent.CiFailure] :=
  (c2_theorem _ _).1
    ⟨⟨1, WorkflowRunStatus.completed, some WorkflowRunConclusion.failure, 0, 0⟩,
      by decide, rfl⟩

/-- C10: confirmed.  A poll's CI check attempts at most one send however
many new completed runs it found; when the new runs include both a failure
and a success conclusion the single event is CiFailure; and every completed
run of the fetch ends up in the seen set, also when its conclusion (e.g.
cancelled) produced no event. -/
theorem c10_theorem (runs : List WorkflowRun) (st : EventCheckerState) :
    (check_workflow_run (.ok runs) st).1.length ≤ 1 ∧
    ((∃ r ∈ newCompletedRuns runs st.seen_workflow_runs,
        r.conclusion = some WorkflowRunConclusion.failure) →
      (∃ r ∈ newCompletedRuns runs st.seen_workflow_runs,
        r.conclusion = some WorkflowRunConclusion.success) →
      (check_workflow_run (.ok runs) st).1 = [NotificationEvent.CiFailure]) ∧
    (∀ r ∈ runs, r.status = WorkflowRunStatus.completed →
      r.id ∈ (check_workflow_run (.ok runs) st).2.seen_workflow_runs) :=
  ⟨cwr_length _ _,
   fun hf _ => cwr_failure runs st hf,
   fun r hr hc => cwr_seen_covers runs st r hr hc⟩

section PrEventLemmas

theorem reviewEvent_some (s : ReviewState) (e : NotificationEvent)
    (h : reviewEvent s = some e) :
    e = NotificationEvent.PrApproved ∨ e = NotificationEvent.PrChangesRequested := by
  cases s <;> simp [reviewEvent] at h <;> simp [h]

theorem processReviews_seen_mono (c : Bool) (s : Int) (rs : List Review)
    (seen : List Int) (a : Int) (h : a ∈ seen) :
    a ∈ (processReviews c s rs seen).2.1 := by
  induction rs generalizing seen with
  | nil => exact h
  | cons r rest ih =>
    simp only [processReviews]
    split
    · split
      · split
        · exact ih _ (List.mem_cons_of_mem _ h)
        · exact h
      · exact ih _ (List.mem_cons_of_mem _ h)
    · exact ih _ h

theorem processReviews_no_abort (s : Int) (rs : List Review) (seen : List Int) :
    (processReviews true s rs seen).2.2 = false := by
  induction rs generalizing seen with
  | nil => rfl
  | cons r rest ih =>
    simp only [processReviews]
    split
    · split
      · simp only [if_true]
        exact ih _
      · exact ih _
    · exact ih _

theorem processReviews_covers (s : Int) (rs : List Review) (seen : List Int)
    (r : Review) (hr : r ∈ rs) (ht : s < r.submitted_at) :
    r.id ∈ (processReviews true s rs seen).2.1 := by
  induction rs generalizing seen with
  | nil => cases hr
  | cons x rest ih =>
    rcases List.mem_cons.mp hr with h1 | h2
    · subst h1
      simp only [processReviews]
      by_cases hs : r.id ∈ seen
      · have hcond : decide (r.id ∉ seen ∧ s < r.submitted_at) = false := by
          simp [hs]
        rw [hcond]
        simp only [Bool.false_eq_true, if_false]
        exact processReviews_seen_mono _ _ _ _ _ hs
      · have hcond : decide (r.id ∉ seen ∧ s < r.submitted_at) = true := by
          simp [hs, ht]
        rw [hcond]
        simp only [if_true]
        cases hre : reviewEvent r.state with
        | some e =>
          simp only [if_true]
          exact processReviews_seen_mono _ _ _ _ _ (List.mem_cons_self _ _)
        | none =>
          exact processReviews_seen_mono _ _ _ _ _ (List.mem_cons_self _ _)
    · simp only [processReviews]
      split
      · split
        · split
          · exact ih _ h2
          · simp_all
        · exact ih _ h2
      · exact ih _ h2

theorem processReviews_stable (c : Bool) (s : Int) (rs : List Review)
    (seen : List Int) (h : ∀ r ∈ rs, r.id ∈ seen ∨ ¬ s < r.submitted_at) :
    processReviews c s rs seen = ([], seen, false) := by
  induction rs generalizing seen with
  | nil => rfl
  | cons r rest ih =>
    have hcond : decide (r.id ∉ seen ∧ s < r.submitted_at) = false := by
      rcases h r (List.mem_cons_self r rest) with h1 | h1 <;> simp [h1]
    simp only [processReviews, hcond, Bool.false_eq_true, if_false]
    exact ih _ (fun x hx => h x (List.mem_cons_of_mem _ hx))

theorem processReviews_events (c : Bool) (s : Int) (rs : List Review)
    (seen : List Int) (e : NotificationEvent)
    (h : e ∈ (processReviews c s rs seen).1) :
    e = NotificationEvent.PrApproved ∨ e = NotificationEvent.PrChangesRequested := by
  induction rs generalizing seen with
  | nil => cases h
  | cons r rest ih =>
    simp only [processReviews] at h
    split at h
    · split at h
      · split at h
        · rcases List.mem_cons.mp h with h1 | h2
          · subst h1
            exact reviewEvent_some r.state _ (by assumption)
          · exact ih _ h2
        · rcases List.mem_cons.mp h with h1 | h2
          · subst h1
            exact reviewEvent_some r.state _ (by assumption)
          · cases h2
      · exact ih _ h
    · exact ih _ h

theorem processReviews_nondecisive (c : Bool) (s : Int) (rs : List Review)
    (seen : List Int) (h : ∀ r ∈ rs, reviewEvent r.state = none) :
    (processReviews c s rs seen).1 = [] ∧ (processReviews c s rs seen).2.2 = false := by
  induction rs generalizing seen with
  | nil => exact ⟨rfl, rfl⟩
  | cons r rest ih =>
    simp only [processReviews]
    split
    · rw [h r (List.mem_cons_self r rest)]
      exact ih _ (fun x hx => h x (List.mem_cons_of_mem _ hx))
    · exact ih _ (fun x hx => h x (List.mem_cons_of_mem _ hx))

theorem processComments_seen_mono (c : Bool) (s : Int) (cs : List Comment)
    (seen : List Int) (a : Int) (h : a ∈ seen) :
    a ∈ (processComments c s cs seen).2.1 := by
  induction cs generalizing seen with
  | nil => exact h
  | cons cm rest ih =>
    simp only [processComments]
    split
    · split
      · exact ih _ (List.mem_cons_of_mem _ h)
      · exact h
    · exact ih _ h

theorem processComments_no_abort (s : Int) (cs : List Comment) (seen : List Int) :
    (processComments true s cs seen).2.2 = false := by
  induction cs generalizing seen with
  | nil => rfl
  | cons cm rest ih =>
    simp only [processComments]
    split
    · simp only [if_true]
      exact ih _
    · exact ih _

theorem processComments_covers (s : Int) (cs : List Comment) (seen : List Int)
    (cm : Comment) (hc : cm ∈ cs) (ht : s < cm.created_at) :
    cm.id ∈ (processComments true s cs seen).2.1 := by
  induction cs generalizing seen with
  | nil => cases hc
  | cons x rest ih =>
    rcases List.mem_cons.mp hc with h1 | h2
    · subst h1
      simp only [processComments]
      by_cases hs : cm.id ∈ seen
      · have hcond : decide (cm.id ∉ seen ∧ s < cm.created_at) = false := by
          simp [hs]
        rw [hcond]
        simp only [Bool.false_eq_true, if_false]
        exact processComments_seen_mono _ _ _ _ _ hs
      · have hcond : decide (cm.id ∉ seen ∧ s < cm.created_at) = true := by
          simp [hs, ht]
        rw [hcond]
        simp only [if_true]
        exact processComments_seen_mono _ _ _ _ _ (List.mem_cons_self _ _)
    · simp only [processComments]
      split
      · split
        · exact ih _ h2
        · simp_all
      · exact ih _ h2

theorem processComments_stable (c : Bool) (s : Int) (cs : List Comment)
    (seen : List Int) (h : ∀ cm ∈ cs, cm.id ∈ seen ∨ ¬ s < cm.created_at) :
    processComments c s cs seen = ([], seen, false) := by
  induction cs generalizing seen with
  | nil => rfl
  | cons cm rest ih =>
    have hcond : decide (cm.id ∉ seen ∧ s < cm.created_at) = false := by
      rcases h cm (List.mem_cons_self cm rest) with h1 | h1 <;> simp [h1]
    simp only [processComments, hcond, Bool.false_eq_true, if_false]
    exact ih _ (fun x hx => h x (List.mem_cons_of_mem _ hx))

theorem processComments_events (c : Bool) (s : Int) (cs : List Comment)
    (seen : List Int) (e : NotificationEvent)
    (h : e ∈ (processComments c s cs seen).1) :
    e = NotificationEvent.PrNewComment := by
  induction cs generalizing seen with
  | nil => cases h
  | cons cm rest ih =>
    simp only [processComments] at h
    split at h
    · split at h
      · rcases List.mem_cons.mp h with h1 | h2
        · exact h1
        · exact ih _ h2
      · rcases List.mem_cons.mp h with h1 | h2
        · exact h1
        · cases h2
    · exact ih _ h

end PrEventLemmas

/-- C10: witness on a failure, a success and a cancelled run: one CiFailure
event, and the cancelled run is marked seen although it caused no event. -/
theorem c10_witness :
    (check_workflow_run (.ok sampleRuns) (EventCheckerState.fresh 0)).1 =
      [NotificationEvent.CiFailure] ∧
    (3 : Int) ∈
      (check_workflow_run (.ok sampleRuns) (EventCheckerState.fresh 0)).2.seen_workflow_runs :=
  ⟨(c10_theorem sampleRuns (EventCheckerState.fresh 0)).2.1
      ⟨⟨1, .completed, some .failure, 0, 0⟩, by decide, rfl⟩
      ⟨⟨2, .completed, some .success, 0, 0⟩, by decide, rfl⟩,
   (c10_theorem sampleRuns (EventCheckerState.fresh 0)).2.2
      ⟨3, .completed, some .cancelled, 0, 0⟩ (by decide) rfl⟩

section CheckPrEventLemmas

theorem cpe_invariants (c : Bool) (obs : Observation) (st : EventCheckerState) :
    (check_pr_events c obs st).2.start_time = st.start_time ∧
    (check_pr_events c obs st).2.seen_workflow_runs = st.seen_workflow_runs := by
  obtain ⟨rf, pf, df, vf, cf⟩ := obs
  cases pf with
  | error u => exact ⟨rfl, rfl⟩
  | ok op =>
    cases op with
    | none => exact ⟨rfl, rfl⟩
    | some pr =>
      simp only [check_pr_events]
      split
      · split <;> exact ⟨rfl, rfl⟩
      · cases vf with
        | error u =>
          cases cf with
          | error v => exact ⟨rfl, rfl⟩
          | ok comments => exact ⟨rfl, rfl⟩
        | ok reviews =>
          split
          · exact ⟨rfl, rfl⟩
          · cases cf with
            | error v => exact ⟨rfl, rfl⟩
            | ok comments => exact ⟨rfl, rfl⟩

theorem cpe_flag (c : Bool) (obs : Observation) (st : EventCheckerState)
    (h : mergedHitCheck st.start_time obs.detailsFetch = false) :
    (check_pr_events c obs st).2.pr_is_merged = st.pr_is_merged := by
  obtain ⟨rf, pf, df, vf, cf⟩ := obs
  cases pf with
  | error u => rfl
  | ok op =>
    cases op with
    | none => rfl
    | some pr =>
      simp only [check_pr_events]
      rw [h]
      simp only [Bool.false_eq_true, if_false]
      cases vf with
      | error u =>
        cases cf with
        | error v => rfl
        | ok comments => rfl
      | ok reviews =>
        split
        · rfl
        · cases cf with
          | error v => rfl
          | ok comments => rfl

theorem cpe_no_prmerged (c : Bool) (obs : Observation) (st : EventCheckerState)
    (h : mergedHitCheck st.start_time obs.detailsFetch = false) :
    NotificationEvent.PrMerged ∉ (check_pr_events c obs st).1 := by
  obtain ⟨rf, pf, df, vf, cf⟩ := obs
  cases pf with
  | error u => simp [check_pr_events]
  | ok op =>
    cases op with
    | none => simp [check_pr_events]
    | some pr =>
      simp only [check_pr_events, reviewPass, commentPass]
      rw [h]
      simp only [Bool.false_eq_true, if_false]
      cases vf with
      | error u =>
        cases cf with
        | error v => simp
        | ok comments =>
          intro hm
          simp only [List.nil_append] at hm
          exact absurd (processComments_events _ _ _ _ _ hm) (by decide)
      | ok reviews =>
        split
        · intro hm
          exact absurd (processReviews_events _ _ _ _ _ hm) (by decide)
        · cases cf with
          | error v =>
            intro hm
            rcases List.mem_append.mp hm with h1 | h1
            · exact absurd (processReviews_events _ _ _ _ _ h1) (by decide)
            · cases h1
          | ok comments =>
            intro hm
            rcases List.mem_append.mp hm with h1 | h1
            · exact absurd (processReviews_events _ _ _ _ _ h1) (by decide)
            · exact absurd (processComments_events _ _ _ _ _ h1) (by decide)

theorem runCycle_merged (c : Bool) (obs : Observation) (st : EventCheckerState)
    (h : st.pr_is_merged = true) :
    runCycle c obs st =
      ((check_workflow_run obs.runsFetch st).1,
       (check_workflow_run obs.runsFetch st).2) := by
  have hp : (check_workflow_run obs.runsFetch st).2.pr_is_merged = true := by
    rw [(cwr_state obs.runsFetch st).2.2.2, h]
  simp [runCycle, hp]

end CheckPrEventLemmas

/-- C5: confirmed.  Once `pr_is_merged` is recorded, every event any later
sequence of cycles attempts is a CI event (CiSuccess or CiFailure): PR-level
checks are skipped forever, no PR-level notification is ever attempted
again, and the merged flag stays set, while the independent CI check keeps
running. -/
theorem c5_theorem (inputs : List (Bool × Observation)) (st : EventCheckerState)
    (h : st.pr_is_merged = true) :
    (∀ e ∈ (runCycles inputs st).1,
      e = NotificationEvent.CiSuccess ∨ e = NotificationEvent.CiFailure) ∧
    (runCycles inputs st).2.pr_is_merged = true := by
  induction inputs generalizing st with
  | nil =>
    constructor
    · intro e he
      simp [runCycles] at he
    · simpa [runCycles] using h
  | cons p rest ih =>
    obtain ⟨c, obs⟩ := p
    have hm := runCycle_merged c obs st h
    have hp : (check_workflow_run obs.runsFetch st).2.pr_is_merged = true := by
      rw [(cwr_state obs.runsFetch st).2.2.2, h]
    have ihr := ih (check_workflow_run obs.runsFetch st).2 hp
    constructor
    · intro e he
      simp only [runCycles] at he
      rw [hm] at he
      rcases List.mem_append.mp he with h1 | h1
      · exact cwr_events_ci _ _ _ h1
      · exact ihr.1 e h1
    · simp only [runCycles]
      rw [hm]
      exact ihr.2

/-- C5: witness.  From a merged state, a cycle observing a failing run and
a new approving review attempts only CI events and stays merged. -/
theorem c5_witness :
    (∀ e ∈ (runCycles [(true, obsCiAndPr)] ⟨0, [], [], [], true⟩).1,
      e = NotificationEvent.CiSuccess ∨ e = NotificationEvent.CiFailure) ∧
    (runCycles [(true, obsCiAndPr)] ⟨0, [], [], [], true⟩).2.pr_is_merged = true :=
  c5_theorem [(true, obsCiAndPr)] ⟨0, [], [], [], true⟩ rfl

/-- C9: confirmed.  If every cycle's PR-details fetch fails the merged test
— in particular when the PR was already merged before the checker started,
so merged_at is not strictly after start_time — then no PrMerged event is
ever attempted and `pr_is_merged` stays false, so the review and comment
checks keep running on every cycle. -/
theorem c9_theorem (inputs : List (Bool × Observation)) (st : EventCheckerState)
    (hm : st.pr_is_merged = false)
    (h : ∀ p ∈ inputs, mergedHitCheck st.start_time p.2.detailsFetch = false) :
    NotificationEvent.PrMerged ∉ (runCycles inputs st).1 ∧
    (runCycles inputs st).2.pr_is_merged = false := by
  induction inputs generalizing st with
  | nil =>
    constructor
    · intro he
      simp [runCycles] at he
    · simpa [runCycles] using hm
  | cons p rest ih =>
    obtain ⟨c, obs⟩ := p
    have hst : (check_workflow_run obs.runsFetch st).2.start_time = st.start_time :=
      (cwr_state obs.runsFetch st).1
    have hpf : (check_workflow_run obs.runsFetch st).2.pr_is_merged = false := by
      rw [(cwr_state obs.runsFetch st).2.2.2, hm]
    have hmg : mergedHitCheck (check_workflow_run obs.runsFetch st).2.start_time
        obs.detailsFetch = false := by
      rw [hst]
      exact h (c, obs) (List.mem_cons_self _ _)
    have hcyc : runCycle c obs st =
        ((check_workflow_run obs.runsFetch st).1 ++
          (check_pr_events c obs (check_workflow_run obs.runsFetch st).2).1,
         (check_pr_events c obs (check_workflow_run obs.runsFetch st).2).2) := by
      simp [runCycle, hpf]
    have hflag : (check_pr_events c obs
        (check_workflow_run obs.runsFetch st).2).2.pr_is_merged = false := by
      rw [cpe_flag c obs _ hmg, hpf]
    have hst2 : (check_pr_events c obs
        (check_workflow_run obs.runsFetch st).2).2.start_time = st.start_time := by
      rw [(cpe_invariants c obs _).1, hst]
    have ihr := ih (check_pr_events c obs (check_workflow_run obs.runsFetch st).2).2
      hflag (by
        intro q hq
        rw [hst2]
        exact h q (List.mem_cons_of_mem _ hq))
    constructor
    · intro he
      simp only [runCycles] at he
      rw [hcyc] at he
      rcases List.mem_append.mp he with h1 | h1
      · rcases List.mem_append.mp h1 with h2 | h2
        · rcases cwr_events_ci _ _ _ h2 with h3 | h3 <;> simp at h3
        · exact cpe_no_prmerged c obs _ hmg h2
      · exact ihr.1 h1
    · simp only [runCycles]
      rw [hcyc]
      exact ihr.2

/-- C9: witness.  A PR already merged at time -5 against a start time of 0
never yields PrMerged, and the merged flag stays false (so PR checks keep
running and the new approval is still processed). -/
theorem c9_witness :
    NotificationEvent.PrMerged ∉
      (runCycles [(true, obsOldMerged)] (EventCheckerState.fresh 0)).1 ∧
    (runCycles [(true, obsOldMerged)]
      (EventCheckerState.fresh 0)).2.pr_is_merged = false :=
  c9_theorem [(true, obsOldMerged)] (EventCheckerState.fresh 0) rfl (by decide)

/-- C3: amended.  The review loop iterates the fetched reviews in list
order and emits one event for every new decisive review; it does not scan
newest-first and does not stop at the first approval.  For reviews
COMMENTED(t1), CHANGES_REQUESTED(t2), APPROVED(t3) with start < t1 < t2 <
t3 and distinct ids, the loop emits PrChangesRequested and then PrApproved
(marking all three reviews seen), rather than exactly PrApproved. -/
theorem c3_theorem (start t1 t2 t3 i1 i2 i3 : Int)
    (h1 : start < t1) (h12 : t1 < t2) (h23 : t2 < t3)
    (hi12 : i1 ≠ i2) (hi13 : i1 ≠ i3) (hi23 : i2 ≠ i3) :
    processReviews true start
      [⟨i1, .commented, t1⟩, ⟨i2, .changesRequested, t2⟩, ⟨i3, .approved, t3⟩]
      [] =
      ([NotificationEvent.PrChangesRequested, NotificationEvent.PrApproved],
       [i3, i2, i1], false) := by
  have h2 : start < t2 := h1.trans h12
  have h3 : start < t3 := h2.trans h23
  simp [processReviews, reviewEvent, h1, h2, h3, hi12.symm, hi13.symm, hi23.symm]

/-- C3: counterexample to the claim as stated.  On reviews COMMENTED(1),
CHANGES_REQUESTED(2), APPROVED(3) the PR check emits PrChangesRequested
followed by PrApproved — not exactly PrApproved. -/
theorem c3_counterexample :
    (check_pr_events true obsReviews (EventCheckerState.fresh 0)).1 =
      [NotificationEvent.PrChangesRequested, NotificationEvent.PrApproved] ∧
    (check_pr_events true obsReviews (EventCheckerState.fresh 0)).1 ≠
      [NotificationEvent.PrApproved] := by decide

/-- C3: witness instantiating the amended theorem at start 0, times 1 < 2 <
3 and ids 1, 2, 3. -/
theorem c3_witness :
    processReviews true 0
      [⟨1, .commented, 1⟩, ⟨2, .changesRequested, 2⟩, ⟨3, .approved, 3⟩] [] =
      ([NotificationEvent.PrChangesRequested, NotificationEvent.PrApproved],
       [3, 2, 1], false) :=
  c3_theorem 0 1 2 3 1 2 3 (by decide) (by decide) (by decide)
    (by decide) (by decide) (by decide)

/-- C7: amended.  A COMMENTED review maps to no notification at all (it is
merely marked seen), whatever the channel state; PrNewComment is emitted
only by the issue-comment loop, for a new comment created after
start_time.  So a PR with only non-decisive reviews and no new issue
comment produces no event, and one with a new issue comment produces
PrNewComment. -/
theorem c7_theorem (chOpen : Bool) (st : EventCheckerState)
    (rf : Except Unit (List WorkflowRun)) (pr : PullRequest)
    (df : Except Unit PullRequest) (reviews : List Review) (cm : Comment)
    (hmg : mergedHitCheck st.start_time df = false)
    (hrev : ∀ r ∈ reviews, reviewEvent r.state = none)
    (hcm : cm.id ∉ st.seen_comments) (hct : st.start_time < cm.created_at) :
    (check_pr_events chOpen ⟨rf, .ok (some pr), df, .ok reviews, .ok []⟩ st).1 = [] ∧
    (check_pr_events true ⟨rf, .ok (some pr), df, .ok reviews, .ok [cm]⟩ st).1 =
      [NotificationEvent.PrNewComment] := by
  obtain ⟨hevs, hab⟩ :=
    processReviews_nondecisive chOpen st.start_time reviews st.seen_reviews hrev
  obtain ⟨hevs2, hab2⟩ :=
    processReviews_nondecisive true st.start_time reviews st.seen_reviews hrev
  have hc1 : processComments true st.start_time [cm] st.seen_comments =
      ([NotificationEvent.PrNewComment], cm.id :: st.seen_comments, false) := by
    simp [processComments, hcm, hct]
  constructor
  · simp only [check_pr_events, reviewPass, commentPass]
    rw [hmg]
    simp only [Bool.false_eq_true, if_false]
    rw [hab]
    simp only [Bool.false_eq_true, if_false]
    simp [processComments, hevs]
  · simp only [check_pr_events, reviewPass, commentPass]
    rw [hmg]
    simp only [Bool.false_eq_true, if_false]
    rw [hab2]
    simp only [Bool.false_eq_true, if_false]
    rw [hevs2, hc1]
    rfl

/-- C7: counterexample to the claim as stated.  A PR whose only review is a
new COMMENTED review yields no event at all, where the claim requires
PrNewComment. -/
theorem c7_counterexample :
    (check_pr_events true obsCommented (EventCheckerState.fresh 0)).1 = [] ∧
    (check_pr_events true obsCommented (EventCheckerState.fresh 0)).1 ≠
      [NotificationEvent.PrNewComment] := by decide

/-- C7: witness instantiating the amended theorem: a commented review and a
fresh issue comment at time 5 against start time 0. -/
theorem c7_witness :
    (check_pr_events true
      ⟨.ok [], .ok (some openPr), .ok openPr, .ok [⟨1, .commented, 5⟩], .ok []⟩
      (EventCheckerState.fresh 0)).1 = [] ∧
    (check_pr_events true
      ⟨.ok [], .ok (some openPr), .ok openPr, .ok [⟨1, .commented, 5⟩],
        .ok [⟨4, "hi", 5⟩]⟩
      (EventCheckerState.fresh 0)).1 = [NotificationEvent.PrNewComment] :=
  c7_theorem true (EventCheckerState.fresh 0) (.ok []) openPr (.ok openPr)
    [⟨1, .commented, 5⟩] ⟨4, "hi", 5⟩ (by decide)
    (by decide) (by decide) (by decide)

/-- C4: amended.  CI failure does not pre-empt PR resolution: as long as
`pr_is_merged` is not set, the cycle always runs the PR check after the CI
check and appends its events, even when the CI check just emitted
CiFailure. -/
theorem c4_theorem (chOpen : Bool) (obs : Observation) (st : EventCheckerState)
    (h : st.pr_is_merged = false) :
    (runCycle chOpen obs st).1 =
      (check_workflow_run obs.runsFetch st).1 ++
        (check_pr_events chOpen obs (check_workflow_run obs.runsFetch st).2).1 := by
  have hp : (check_workflow_run obs.runsFetch st).2.pr_is_merged = false := by
    rw [(cwr_state obs.runsFetch st).2.2.2, h]
  simp [runCycle, hp]

/-- C4: counterexample to the claim as stated.  A cycle whose CI check
emits CiFailure still runs PR resolution and also emits PrApproved for a
new approving review, where the claim requires the cycle's output to be
CiFailed alone. -/
theorem c4_counterexample :
    (runCycle true obsCiAndPr (EventCheckerState.fresh 0)).1 =
      [NotificationEvent.CiFailure, NotificationEvent.PrApproved] ∧
    NotificationEvent.PrApproved ∈
      (runCycle true obsCiAndPr (EventCheckerState.fresh 0)).1 := by decide

/-- C4: witness instantiating the amended theorem on the CI-failure plus
new-approval observation. -/
theorem c4_witness :
    (runCycle true obsCiAndPr (EventCheckerState.fresh 0)).1 =
      (check_workflow_run obsCiAndPr.runsFetch (EventCheckerState.fresh 0)).1 ++
        (check_pr_events true obsCiAndPr
          (check_workflow_run obsCiAndPr.runsFetch (EventCheckerState.fresh 0)).2).1 :=
  c4_theorem true obsCiAndPr (EventCheckerState.fresh 0) rfl

section MonitorLemmas

theorem mapGet_insert_self (m : List (String × MonitoredBranch)) (k : String)
    (v : MonitoredBranch) : mapGet (mapInsert m k v) k = some v := by
  simp [mapGet, mapInsert, List.find?_cons_of_pos]

theorem find?_filter_ne (m : List (String × MonitoredBranch)) (k k' : String)
    (h : k' ≠ k) :
    (m.filter fun p => decide (p.1 ≠ k)).find? (fun p => decide (p.1 = k')) =
      m.find? (fun p => decide (p.1 = k')) := by
  induction m with
  | nil => rfl
  | cons p rest ih =>
    by_cases hp : p.1 = k
    · have h2 : (decide (p.1 = k') : Bool) = false := by
        simp [hp]
        exact Ne.symm h
      rw [List.filter_cons_of_neg (by simp [hp]),
        List.find?_cons_of_neg _ (by simp [h2]), ih]
    · by_cases hk' : p.1 = k'
      · rw [List.filter_cons_of_pos (by simp [hp]),
          List.find?_cons_of_pos _ (by simp [hk']),
          List.find?_cons_of_pos _ (by simp [hk'])]
      · rw [List.filter_cons_of_pos (by simp [hp]),
          List.find?_cons_of_neg _ (by simp [hk']),
          List.find?_cons_of_neg _ (by simp [hk']), ih]

theorem mapGet_insert_ne (m : List (String × MonitoredBranch)) (k k' : String)
    (v : MonitoredBranch) (h : k' ≠ k) :
    mapGet (mapInsert m k v) k' = mapGet m k' := by
  simp only [mapGet, mapInsert]
  rw [List.find?_cons_of_neg _ (by simp [Ne.symm h]), find?_filter_ne m k k' h]

theorem monitorBranchStep_shape (c : Bool) (n : String) (sha : Option String)
    (σ : String) (st : MonitorState) (evs : List String) (st' : MonitorState)
    (h : monitorBranchStep c n sha σ st = .ok (evs, st')) :
    st' = st ∨ (∃ s, sha = some s ∧ st' = ⟨mapInsert st.branches n ⟨s, σ⟩⟩) := by
  cases sha with
  | none =>
    simp only [monitorBranchStep] at h
    left
    exact ((Prod.mk.injEq _ _ _ _).mp (Except.ok.inj h)).2.symm
  | some s =>
    simp only [monitorBranchStep] at h
    split at h
    · split at h
      · split at h
        · right
          exact ⟨s, rfl, ((Prod.mk.injEq _ _ _ _).mp (Except.ok.inj h)).2.symm⟩
        · cases h
      · right
        exact ⟨s, rfl, ((Prod.mk.injEq _ _ _ _).mp (Except.ok.inj h)).2.symm⟩
    · left
      exact ((Prod.mk.injEq _ _ _ _).mp (Except.ok.inj h)).2.symm

end MonitorLemmas

/-- C1: amended (monitor.rs per-branch body, lines 93-116).  A branch with
no stored state never causes a notification and never panics: the step
returns an empty event list; the state record is created at the observed
sha and status when the sha fetch succeeded and the status is non-empty,
while an empty status leaves the state untouched (no record is created that
cycle). -/
theorem c1_theorem (c : Bool) (n : String) (sha : Option String) (σ : String)
    (st : MonitorState) (h : mapGet st.branches n = none) :
    ∃ st', monitorBranchStep c n sha σ st = .ok ([], st') ∧
      (∀ s, sha = some s → σ ≠ "" → mapGet st'.branches n = some ⟨s, σ⟩) ∧
      (σ = "" → st' = st) := by
  cases sha with
  | none =>
    refine ⟨st, rfl, ?_, fun _ => rfl⟩
    intro s hs
    cases hs
  | some s =>
    by_cases hσ : σ = ""
    · subst hσ
      refine ⟨st, ?_, ?_, fun _ => rfl⟩
      · simp [monitorBranchStep, h]
      · intro s' _ hcon
        exact absurd rfl hcon
    · refine ⟨⟨mapInsert st.branches n ⟨s, σ⟩⟩, ?_, ?_, fun he => absurd he hσ⟩
      · simp [monitorBranchStep, h, hσ]
      · intro s' hs' _
        obtain rfl := Option.some.inj hs'
        exact mapGet_insert_self st.branches n ⟨s, σ⟩

/-- C1: counterexample to the claim as stated.  A never-seen branch whose
resolved status is the empty string is observed without any record being
created: the cycle returns an unchanged empty state (and emits nothing),
where the claim requires the state record to be created at the current
label/sha. -/
theorem c1_counterexample :
    monitorCycle true ⟨true, ["b"], fun _ => some "s", fun _ => ""⟩ ⟨[]⟩ =
      .ok ([], ⟨[]⟩) := rfl

/-- C1: witness instantiating the amended theorem on a fresh branch with a
non-empty status. -/
theorem c1_witness :
    ∃ st', monitorBranchStep true "b" (some "s") "ok" ⟨[]⟩ = .ok ([], st') ∧
      (∀ s, (some "s" : Option String) = some s → "ok" ≠ "" →
        mapGet st'.branches "b" = some ⟨s, "ok"⟩) ∧
      ("ok" = "" → st' = ⟨[]⟩) :=
  c1_theorem true "b" (some "s") "ok" ⟨[]⟩ rfl

/-- C8: the claim is right and monitor.rs is wrong.  With the consumer gone
(channel closed), a status change for a tracked branch reaches
`gui_sender.send(..).unwrap()`, which panics the monitor thread instead of
logging and continuing (events.rs, by contrast, only logs).  Moreover in
events.rs a dropped PrMerged send is re-attempted on the next cycle, since
`pr_is_merged` is only set after a successful send: the second and third
conjuncts show the same PrMerged send attempted on two consecutive cycles
over an unchanged remote state. -/
theorem c8_theorem :
    monitorCycle false ⟨true, ["b"], fun _ => some "s2", fun _ => "ok2"⟩
      ⟨[("b", ⟨"s1", "ok1"⟩)]⟩ = .error () ∧
    (runCycle false obsMerged (EventCheckerState.fresh 0)).1 =
      [NotificationEvent.PrMerged] ∧
    (runCycle false obsMerged
      ((runCycle false obsMerged (EventCheckerState.fresh 0)).2)).1 =
      [NotificationEvent.PrMerged] :=
  ⟨rfl, by decide, by decide⟩

section SecondPollLemmas

theorem cpe_char (c : Bool) (rf : Except Unit (List WorkflowRun))
    (pr : PullRequest) (df : Except Unit PullRequest)
    (vf : Except Unit (List Review)) (cf : Except Unit (List Comment))
    (st : EventCheckerState)
    (hmg : mergedHitCheck st.start_time df = false)
    (hab : (reviewPass c vf st.start_time st.seen_reviews).2.2 = false) :
    check_pr_events c ⟨rf, .ok (some pr), df, vf, cf⟩ st =
      ((reviewPass c vf st.start_time st.seen_reviews).1 ++
        (commentPass c cf st.start_time st.seen_comments).1,
       { st with
         seen_reviews := (reviewPass c vf st.start_time st.seen_reviews).2.1,
         seen_comments := (commentPass c cf st.start_time st.seen_comments).2.1 }) := by
  simp only [check_pr_events]
  rw [hmg]
  simp only [Bool.false_eq_true, if_false]
  rw [hab]
  simp only [Bool.false_eq_true, if_false]

theorem cpe_merged_sets_flag (rf : Except Unit (List WorkflowRun))
    (pr : PullRequest) (df : Except Unit PullRequest)
    (vf : Except Unit (List Review)) (cf : Except Unit (List Comment))
    (st : EventCheckerState)
    (hmg : mergedHitCheck st.start_time df = true) :
    check_pr_events true ⟨rf, .ok (some pr), df, vf, cf⟩ st =
      ([NotificationEvent.PrMerged], { st with pr_is_merged := true }) := by
  simp [check_pr_events, hmg]

theorem cpe_stable (c : Bool) (obs : Observation) (st : EventCheckerState)
    (hmg : mergedHitCheck st.start_time obs.detailsFetch = false)
    (hrev : ∀ reviews, obs.reviewsFetch = .ok reviews →
      ∀ r ∈ reviews, r.id ∈ st.seen_reviews ∨ ¬ st.start_time < r.submitted_at)
    (hcom : ∀ comments, obs.commentsFetch = .ok comments →
      ∀ cm ∈ comments, cm.id ∈ st.seen_comments ∨ ¬ st.start_time < cm.created_at) :
    check_pr_events c obs st = ([], st) := by
  obtain ⟨rf, pf, df, vf, cf⟩ := obs
  cases pf with
  | error u => rfl
  | ok op =>
    cases op with
    | none => rfl
    | some pr =>
      have h1 : reviewPass c vf st.start_time st.seen_reviews =
          ([], st.seen_reviews, false) := by
        cases vf with
        | error u => rfl
        | ok reviews =>
          exact processReviews_stable c st.start_time reviews st.seen_reviews
            (hrev reviews rfl)
      have h2 : commentPass c cf st.start_time st.seen_comments =
          ([], st.seen_comments, false) := by
        cases cf with
        | error u => rfl
        | ok comments =>
          exact processComments_stable c st.start_time comments st.seen_comments
            (hcom comments rfl)
      rw [cpe_char c rf pr df vf cf st hmg (by rw [h1])]
      rw [h1, h2]
      rfl

theorem cpe_covers (rf : Except Unit (List WorkflowRun)) (pr : PullRequest)
    (df : Except Unit PullRequest) (vf : Except Unit (List Review))
    (cf : Except Unit (List Comment)) (st : EventCheckerState)
    (hmg : mergedHitCheck st.start_time df = false) :
    (∀ reviews, vf = .ok reviews → ∀ r ∈ reviews,
      st.start_time < r.submitted_at →
        r.id ∈ (check_pr_events true ⟨rf, .ok (some pr), df, vf, cf⟩ st).2.seen_reviews) ∧
    (∀ comments, cf = .ok comments → ∀ cm ∈ comments,
      st.start_time < cm.created_at →
        cm.id ∈ (check_pr_events true ⟨rf, .ok (some pr), df, vf, cf⟩ st).2.seen_comments) := by
  have hab : (reviewPass true vf st.start_time st.seen_reviews).2.2 = false := by
    cases vf with
    | error u => rfl
    | ok reviews => exact processReviews_no_abort st.start_time reviews st.seen_reviews
  rw [cpe_char true rf pr df vf cf st hmg hab]
  constructor
  · intro reviews hvf r hr ht
    subst hvf
    exact processReviews_covers st.start_time reviews st.seen_reviews r hr ht
  · intro comments hcf cm hc ht
    subst hcf
    exact processComments_covers st.start_time comments st.seen_comments cm hc ht

theorem runCycle_split (c : Bool) (obs : Observation) (st : EventCheckerState)
    (h : st.pr_is_merged = false) :
    runCycle c obs st =
      ((check_workflow_run obs.runsFetch st).1 ++
        (check_pr_events c obs (check_workflow_run obs.runsFetch st).2).1,
       (check_pr_events c obs (check_workflow_run obs.runsFetch st).2).2) := by
  have hp : (check_workflow_run obs.runsFetch st).2.pr_is_merged = false := by
    rw [(cwr_state obs.runsFetch st).2.2.2, h]
  simp [runCycle, hp]

theorem cwr_second (obs : Observation) (st : EventCheckerState)
    (hcov : ∀ runs, obs.runsFetch = .ok runs →
      ∀ r ∈ runs, r.status = WorkflowRunStatus.completed →
        r.id ∈ st.seen_workflow_runs) :
    check_workflow_run obs.runsFetch st = ([], st) := by
  cases hrf : obs.runsFetch with
  | error u => rfl
  | ok runs => exact cwr_stable runs st (hcov runs hrf)

theorem runCycle_covers (c : Bool) (obs : Observation) (st : EventCheckerState) :
    ∀ runs, obs.runsFetch = .ok runs →
      ∀ r ∈ runs, r.status = WorkflowRunStatus.completed →
        r.id ∈ (runCycle c obs st).2.seen_workflow_runs := by
  intro runs hrf r hr hcst
  by_cases hp : st.pr_is_merged = true
  · rw [runCycle_merged c obs st hp, hrf]
    exact cwr_seen_covers runs st r hr hcst
  · have hpf : st.pr_is_merged = false := by simpa using hp
    rw [runCycle_split c obs st hpf]
    rw [(cpe_invariants c obs _).2, hrf]
    exact cwr_seen_covers runs st r hr hcst

theorem cpe_second (c2 : Bool) (obs : Observation) (st : EventCheckerState)
    (hm2f : (runCycle true obs st).2.pr_is_merged = false) :
    check_pr_events c2 obs (runCycle true obs st).2 =
      ([], (runCycle true obs st).2) := by
  obtain ⟨rf, pf, df, vf, cf⟩ := obs
  cases pf with
  | error u => rfl
  | ok op =>
    cases op with
    | none => rfl
    | some pr =>
      by_cases hp : st.pr_is_merged = true
      · exfalso
        have hflag : (runCycle true ⟨rf, .ok (some pr), df, vf, cf⟩ st).2.pr_is_merged =
            true := by
          rw [runCycle_merged true _ st hp]
          show (check_workflow_run rf st).2.pr_is_merged = true
          rw [(cwr_state rf st).2.2.2, hp]
        rw [hflag] at hm2f
        exact absurd hm2f (by simp)
      · have hpf : st.pr_is_merged = false := by simpa using hp
        have hcyc : (runCycle true ⟨rf, .ok (some pr), df, vf, cf⟩ st).2 =
            (check_pr_events true ⟨rf, .ok (some pr), df, vf, cf⟩
              (check_workflow_run rf st).2).2 := by
          rw [runCycle_split true _ st hpf]
        cases hmg : mergedHitCheck st.start_time df with
        | true =>
          exfalso
          have hmgA : mergedHitCheck (check_workflow_run rf st).2.start_time df =
              true := by
            rw [(cwr_state rf st).1]
            exact hmg
          have hset := cpe_merged_sets_flag rf pr df vf cf
            (check_workflow_run rf st).2 hmgA
          rw [hcyc, hset] at hm2f
          exact absurd hm2f (by simp)
        | false =>
          have hmgA : mergedHitCheck (check_workflow_run rf st).2.start_time df =
              false := by
            rw [(cwr_state rf st).1]
            exact hmg
          have hcov := cpe_covers rf pr df vf cf (check_workflow_run rf st).2 hmgA
          have hst1 : (runCycle true ⟨rf, .ok (some pr), df, vf, cf⟩ st).2.start_time =
              st.start_time := by
            rw [hcyc, (cpe_invariants true _ _).1, (cwr_state rf st).1]
          apply cpe_stable
          · rw [hst1]
            exact hmg
          · intro reviews hvf r hr
            by_cases ht : st.start_time < r.submitted_at
            · left
              rw [hcyc]
              exact hcov.1 reviews hvf r hr (by rw [(cwr_state rf st).1]; exact ht)
            · right
              rw [hst1]
              exact ht
          · intro comments hcf cm hc
            by_cases ht : st.start_time < cm.created_at
            · left
              rw [hcyc]
              exact hcov.2 comments hcf cm hc (by rw [(cwr_state rf st).1]; exact ht)
            · right
              rw [hst1]
              exact ht

theorem runCycle_idem (c2 : Bool) (obs : Observation) (st : EventCheckerState) :
    runCycle c2 obs (runCycle true obs st).2 = ([], (runCycle true obs st).2) := by
  have hci : check_workflow_run obs.runsFetch (runCycle true obs st).2 =
      ([], (runCycle true obs st).2) :=
    cwr_second obs _ (runCycle_covers true obs st)
  by_cases hm2 : (runCycle true obs st).2.pr_is_merged = true
  · rw [runCycle_merged c2 obs _ hm2, hci]
  · have hm2f : (runCycle true obs st).2.pr_is_merged = false := by simpa using hm2
    rw [runCycle_split c2 obs _ hm2f]
    have h1 : (check_workflow_run obs.runsFetch (runCycle true obs st).2).1 = [] := by
      rw [hci]
    have h2 : (check_workflow_run obs.runsFetch (runCycle true obs st).2).2 =
        (runCycle true obs st).2 := by
      rw [hci]
    rw [h1, h2, cpe_second c2 obs st hm2f]
    rfl

end SecondPollLemmas

section MonitorSecondPollLemmas

theorem step_settled_noop (c : Bool) (obs : MonitorObs) (st : MonitorState)
    (n : String) (h : branchSettled obs st n) :
    monitorBranchStep c n (obs.shaOf n) (obs.statusOf n) st = .ok ([], st) := by
  cases hsha : obs.shaOf n with
  | none => simp [monitorBranchStep]
  | some s =>
    simp only [branchSettled, hsha] at h
    rcases h with h | h
    · simp [monitorBranchStep, h]
    · simp [monitorBranchStep, h]

theorem step_settles (c : Bool) (obs : MonitorObs) (n : String)
    (st st' : MonitorState) (evs : List String)
    (h : monitorBranchStep c n (obs.shaOf n) (obs.statusOf n) st = .ok (evs, st')) :
    branchSettled obs st' n := by
  cases hsha : obs.shaOf n with
  | none => simp [branchSettled, hsha]
  | some s =>
    rw [hsha] at h
    simp only [branchSettled, hsha]
    by_cases hσ : obs.statusOf n = ""
    · exact Or.inl hσ
    · right
      cases hm : mapGet st.branches n with
      | none =>
        simp [monitorBranchStep, hm, hσ] at h
        rw [← h.2]
        exact mapGet_insert_self st.branches n ⟨s, obs.statusOf n⟩
      | some b =>
        by_cases hb : b.last_notified_sha ≠ s ∨ b.last_notified_status ≠ obs.statusOf n
        · cases c with
          | false => simp [monitorBranchStep, hm, hσ, hb] at h
          | true =>
            simp [monitorBranchStep, hm, hσ, hb] at h
            rw [← h.2]
            exact mapGet_insert_self st.branches n ⟨s, obs.statusOf n⟩
        · push_neg at hb
          obtain ⟨hb1, hb2⟩ := hb
          have hnot : ¬ (b.last_notified_sha ≠ s ∨
              b.last_notified_status ≠ obs.statusOf n) := by
            push_neg
            exact ⟨hb1, hb2⟩
          simp [monitorBranchStep, hm, hnot] at h
          rw [← h.2, hm]
          cases b
          simp only at hb1 hb2
          rw [hb1, hb2]

theorem step_preserves_settled (c : Bool) (obs : MonitorObs) (m n : String)
    (st st' : MonitorState) (evs : List String)
    (h : monitorBranchStep c m (obs.shaOf m) (obs.statusOf m) st = .ok (evs, st'))
    (hs : branchSettled obs st n) : branchSettled obs st' n := by
  by_cases hmn : m = n
  · subst hmn
    exact step_settles c obs m st st' evs h
  · rcases monitorBranchStep_shape c m (obs.shaOf m) (obs.statusOf m) st evs st' h with
      h1 | ⟨s, hsha, h1⟩
    · rwa [h1]
    · subst h1
      simp only [branchSettled] at hs ⊢
      cases hh : obs.shaOf n with
      | none => trivial
      | some sn =>
        rw [hh] at hs
        rcases hs with h2 | h2
        · exact Or.inl h2
        · right
          rw [mapGet_insert_ne st.branches m n _ (fun he => hmn he.symm)]
          exact h2

theorem go_preserves_settled (c : Bool) (obs : MonitorObs) (names : List String)
    (st st' : MonitorState) (evs : List String) (n : String)
    (h : monitorGo c obs.shaOf obs.statusOf names st = .ok (evs, st'))
    (hs : branchSettled obs st n) : branchSettled obs st' n := by
  induction names generalizing st evs with
  | nil =>
    obtain ⟨-, h2⟩ := (Prod.mk.injEq _ _ _ _).mp (Except.ok.inj h)
    rwa [← h2]
  | cons m rest ih =>
    simp only [monitorGo] at h
    split at h
    · exact absurd h (by simp)
    · rename_i evs1 st1 heq1
      split at h
      · exact absurd h (by simp)
      · rename_i evs2 st2 heq2
        obtain ⟨-, h2⟩ := (Prod.mk.injEq _ _ _ _).mp (Except.ok.inj h)
        subst h2
        exact ih st1 evs2 heq2 (step_preserves_settled c obs m n st st1 evs1 heq1 hs)

theorem go_settles_all (c : Bool) (obs : MonitorObs) (names : List String)
    (st st' : MonitorState) (evs : List String)
    (h : monitorGo c obs.shaOf obs.statusOf names st = .ok (evs, st')) :
    ∀ n ∈ names, branchSettled obs st' n := by
  induction names generalizing st evs with
  | nil =>
    intro n hn
    cases hn
  | cons m rest ih =>
    intro n hn
    simp only [monitorGo] at h
    split at h
    · exact absurd h (by simp)
    · rename_i evs1 st1 heq1
      split at h
      · exact absurd h (by simp)
      · rename_i evs2 st2 heq2
        obtain ⟨-, h2⟩ := (Prod.mk.injEq _ _ _ _).mp (Except.ok.inj h)
        subst h2
        rcases List.mem_cons.mp hn with rfl | hn2
        · exact go_preserves_settled c obs rest st1 st2 evs2 n heq2
            (step_settles c obs n st st1 evs1 heq1)
        · exact ih st1 evs2 heq2 n hn2

theorem step_keys (c : Bool) (obs : MonitorObs) (m : String)
    (names : List String) (st st' : MonitorState) (evs : List String)
    (h : monitorBranchStep c m (obs.shaOf m) (obs.statusOf m) st = .ok (evs, st'))
    (hm : m ∈ names) (hk : keysIn st names) : keysIn st' names := by
  rcases monitorBranchStep_shape c m (obs.shaOf m) (obs.statusOf m) st evs st' h with
    h1 | ⟨s, _, h1⟩
  · rwa [h1]
  · subst h1
    intro p hp
    rcases List.mem_cons.mp hp with rfl | hp2
    · exact hm
    · exact hk p (List.mem_of_mem_filter hp2)

theorem go_keys (c : Bool) (obs : MonitorObs) (toGo names : List String)
    (st st' : MonitorState) (evs : List String)
    (h : monitorGo c obs.shaOf obs.statusOf toGo st = .ok (evs, st'))
    (hsub : ∀ m ∈ toGo, m ∈ names) (hk : keysIn st names) : keysIn st' names := by
  induction toGo generalizing st evs with
  | nil =>
    obtain ⟨-, h2⟩ := (Prod.mk.injEq _ _ _ _).mp (Except.ok.inj h)
    rwa [← h2]
  | cons m rest ih =>
    simp only [monitorGo] at h
    split at h
    · exact absurd h (by simp)
    · rename_i evs1 st1 heq1
      split at h
      · exact absurd h (by simp)
      · rename_i evs2 st2 heq2
        obtain ⟨-, h2⟩ := (Prod.mk.injEq _ _ _ _).mp (Except.ok.inj h)
        subst h2
        exact ih st1 evs2 heq2 (fun x hx => hsub x (List.mem_cons_of_mem _ hx))
          (step_keys c obs m names st st1 evs1 heq1
            (hsub m (List.mem_cons_self _ _)) hk)

theorem go_stable (c : Bool) (obs : MonitorObs) (names : List String)
    (st : MonitorState) (h : ∀ n ∈ names, branchSettled obs st n) :
    monitorGo c obs.shaOf obs.statusOf names st = .ok ([], st) := by
  induction names with
  | nil => rfl
  | cons m rest ih =>
    simp only [monitorGo, step_settled_noop c obs st m (h m (List.mem_cons_self _ _)),
      ih (fun n hn => h n (List.mem_cons_of_mem _ hn))]
    rfl

theorem monitorCycle_second (c1 c2 : Bool) (obs : MonitorObs) (st : MonitorState)
    (evs1 : List String) (st1 : MonitorState)
    (h : monitorCycle c1 obs st = .ok (evs1, st1)) :
    monitorCycle c2 obs st1 = .ok ([], st1) := by
  cases hf : obs.fetchOk with
  | false => simp [monitorCycle, hf]
  | true =>
    simp only [monitorCycle, hf, if_true] at h ⊢
    have hsettled : ∀ n ∈ obs.names, branchSettled obs st1 n :=
      go_settles_all c1 obs obs.names _ st1 evs1 h
    have hkeys0 : keysIn ⟨st.branches.filter fun p => obs.names.contains p.1⟩
        obs.names := by
      intro p hp
      have := List.of_mem_filter hp
      simpa using this
    have hkeys : keysIn st1 obs.names :=
      go_keys c1 obs obs.names obs.names _ st1 evs1 h (fun m hm => hm) hkeys0
    have hfil : st1.branches.filter (fun p => obs.names.contains p.1) =
        st1.branches := by
      apply List.filter_eq_self.mpr
      intro p hp
      simpa using hkeys p hp
    rw [hfil]
    exact go_stable c2 obs obs.names st1 hsettled

end MonitorSecondPollLemmas

/-- C6: confirmed.  When the remote state a poll observes is identical to
what the previous poll observed, the second poll delivers zero
notifications, in both engines.  For the events.rs engine: whatever state
the first cycle (run with the consumer alive) reaches, a second cycle over
the same observation delivers nothing and leaves the state unchanged — the
monotone-channel hypothesis (an mpsc channel that has closed stays closed)
makes the delivered list empty also when the consumer has gone away.  For
the monitor.rs engine: from any state a completed cycle reaches, a second
cycle over the same roster, shas and statuses emits nothing, does not
panic, and leaves the state unchanged. -/
theorem c6_theorem (c1 c2 : Bool) (obs : Observation) (mobs : MonitorObs)
    (st : EventCheckerState) (mst : MonitorState)
    (mevs1 : List String) (mst1 : MonitorState)
    (hm : monitorCycle c1 mobs mst = .ok (mevs1, mst1))
    (hc : c2 = true → c1 = true) :
    delivered c2 (runCycle c2 obs (runCycle c1 obs st).2).1 = [] ∧
    monitorCycle c2 mobs mst1 = .ok ([], mst1) := by
  constructor
  · cases hcc : c2 with
    | false => simp [delivered]
    | true =>
      have h1 : c1 = true := hc hcc
      subst h1
      rw [delivered, if_pos rfl, runCycle_idem true obs st]
  · exact monitorCycle_second c1 c2 mobs mst mevs1 mst1 hm

/-- C6: witness.  The three-review observation replayed against the state
its first poll produced delivers nothing, and the one-branch monitor
observation replayed against its recorded state is a no-op. -/
theorem c6_witness :
    delivered true
      (runCycle true obsReviews
        (runCycle true obsReviews (EventCheckerState.fresh 0)).2).1 = [] ∧
    monitorCycle true ⟨true, ["b"], fun _ => some "s", fun _ => "ok1"⟩
      ⟨[("b", ⟨"s", "ok1"⟩)]⟩ = .ok ([], ⟨[("b", ⟨"s", "ok1"⟩)]⟩) :=
  c6_theorem true true obsReviews ⟨true, ["b"], fun _ => some "s", fun _ => "ok1"⟩
    (EventCheckerState.fresh 0) ⟨[]⟩ [] ⟨[("b", ⟨"s", "ok1"⟩)]⟩ rfl (fun _ => rfl)

end Reposoul
